import Mathlib

/-!
# Verification of the extractous JNI bridge (tika module)

Shallow embedding of the Rust sources
`extractous-core/src/tika/{wrappers.rs, parse_embedded.rs,
parse_embedded_optimized.rs, parse_embedded_batch.rs}` and
`extractous-core/src/embedded.rs`, together with proofs of the spec claims.

Modelling conventions:
* Rust `String` values that travel through the packed byte codec are modelled
  as `RString`: their UTF-8 byte content together with the validity invariant
  that `String::from_utf8` enforces.  Rust `String` values used only as
  messages or plain text are modelled as Lean `String`.
* Machine integers are modelled as `Int`/`Nat` with the relevant casts
  (`i8 as u8`, `i32 as usize`, `usize as jsize`) made explicit.
* JNI accessor calls made by the unmarshalers are recorded in a trace
  (a `List String` of Java method names, in invocation order), so that
  ordering/"which accessor is touched" properties can be stated.
* A Rust panic (the `Vec::with_capacity` capacity overflow reachable in
  `unpack_optimized_data`) is modelled as the `none` outcome of an `Option`;
  `some` carries the ordinary `Result` value.
-/

namespace Extractous

set_option linter.unusedVariables false

/-- The bridge error taxonomy from `extractous-core/src/errors.rs` as used by
the tika module sources (constructors actually constructed there). -/
inductive Error where
  | IoError (msg : String)
  | ParseError (msg : String)
  | Unknown (msg : String)
deriving DecidableEq, Repr

deriving instance DecidableEq for Except

/-- Tika-style metadata: keys mapped to ordered value sequences
(`HashMap<String, Vec<String>>` in `embedded.rs`, modelled associatively). -/
abbrev Metadata := List (String × List String)

/-- `i8 as u8` (the `jbyte` status codes are reinterpreted as `u8` in
`JEmbeddedExtractResult::new` / `JOptimizedResult::new`). -/
def u8_of_i8 (n : Int) : Nat := (n % 256).toNat

/-- `i32`/`i64` value reinterpreted by Rust's `as usize` cast (64-bit target):
negative values wrap modulo `2^64`. -/
def rust_as_usize (n : Int) : Nat := (n % (2 ^ 64 : Int)).toNat

/-- `usize as jsize` (`jsize` is `i32`): wrap modulo `2^32` into the signed
range, as in `buf.len() as jsize` in `JReaderInputStream::read`. -/
def jsize_of_usize (n : Nat) : Int :=
  if n % 2 ^ 32 < 2 ^ 31 then (n % 2 ^ 32 : Nat) else (n % 2 ^ 32 : Nat) - 2 ^ 32

/-- Is `b` a UTF-8 continuation byte (`0x80..=0xBF`)? -/
def utf8_cont (b : UInt8) : Bool :=
  decide (0x80 ≤ b.toNat) && decide (b.toNat ≤ 0xBF)

/-- Allowed second byte of a three-byte UTF-8 sequence headed by `b0`
(the range table of Rust's `core::str` validation). -/
def utf8_3byte_ok (b0 b1 : UInt8) : Bool :=
  (b0.toNat == 0xE0 && decide (0xA0 ≤ b1.toNat) && decide (b1.toNat ≤ 0xBF)) ||
  (decide (0xE1 ≤ b0.toNat) && decide (b0.toNat ≤ 0xEC) && utf8_cont b1) ||
  (b0.toNat == 0xED && decide (0x80 ≤ b1.toNat) && decide (b1.toNat ≤ 0x9F)) ||
  (decide (0xEE ≤ b0.toNat) && decide (b0.toNat ≤ 0xEF) && utf8_cont b1)

/-- Allowed second byte of a four-byte UTF-8 sequence headed by `b0`. -/
def utf8_4byte_ok (b0 b1 : UInt8) : Bool :=
  (b0.toNat == 0xF0 && decide (0x90 ≤ b1.toNat) && decide (b1.toNat ≤ 0xBF)) ||
  (decide (0xF1 ≤ b0.toNat) && decide (b0.toNat ≤ 0xF3) && utf8_cont b1) ||
  (b0.toNat == 0xF4 && decide (0x80 ≤ b1.toNat) && decide (b1.toNat ≤ 0x8F))

/-- The UTF-8 validity check performed by Rust's `String::from_utf8`
(`core::str::validations::run_utf8_validation`, expressed as the standard
byte-range table). -/
def utf8_valid : List UInt8 → Bool
  | [] => true
  | b0 :: rest =>
    if b0.toNat < 0x80 then utf8_valid rest
    else if decide (0xC2 ≤ b0.toNat) && decide (b0.toNat ≤ 0xDF) then
      match rest with
      | b1 :: rest2 => utf8_cont b1 && utf8_valid rest2
      | [] => false
    else if decide (0xE0 ≤ b0.toNat) && decide (b0.toNat ≤ 0xEF) then
      match rest with
      | b1 :: b2 :: rest3 => utf8_3byte_ok b0 b1 && utf8_cont b2 && utf8_valid rest3
      | _ => false
    else if decide (0xF0 ≤ b0.toNat) && decide (b0.toNat ≤ 0xF4) then
      match rest with
      | b1 :: b2 :: b3 :: rest4 =>
        utf8_4byte_ok b0 b1 && utf8_cont b2 && utf8_cont b3 && utf8_valid rest4
      | _ => false
    else false

/-- Model of a Rust `String`: its UTF-8 byte content, carrying the validity
invariant that `String::from_utf8` establishes. -/
abbrev RString := { bs : List UInt8 // utf8_valid bs = true }

/-- The empty Rust string. -/
def RString.empty : RString := ⟨[], rfl⟩

/-- `extractous-core/src/embedded.rs`: `EmbeddedDocument`. -/
structure EmbeddedDocument where
  resource_name : RString
  content_type : RString
  content : List UInt8
  embedded_relationship_id : Option RString
deriving DecidableEq

/-- `extractous-core/src/embedded.rs`: `EmbeddedExtractResult`. -/
structure EmbeddedExtractResult where
  documents : List EmbeddedDocument
  metadata : Metadata
deriving DecidableEq

/-! ## PackedBufferCodec (`parse_embedded_optimized.rs`) -/

/-- `std::io::Cursor<&[u8]>`: the underlying bytes plus a read position. -/
structure Cursor where
  data : List UInt8
  pos : Nat
deriving DecidableEq

/-- `cursor.read_exact(&mut buf)` for a buffer of length `n`, with the
caller's error mapping (`map_err` to `Error::ParseError` with message prefix
`what`): yields the next `n` bytes and advances, or fails when fewer than `n`
bytes remain (`std::io` reports `failed to fill whole buffer`). -/
def cursor_read_exact (c : Cursor) (n : Nat) (what : String) :
    Except Error (List UInt8 × Cursor) :=
  if c.pos + n ≤ c.data.length then
    .ok ((c.data.drop c.pos).take n, ⟨c.data, c.pos + n⟩)
  else
    .error (Error.ParseError ("Failed to read " ++ what ++ ": failed to fill whole buffer"))

/-- Big-endian `i32` from four bytes (`i32::from_be_bytes`). -/
def i32_from_be_bytes (bs : List UInt8) : Int :=
  let v : Nat := (bs.getD 0 0).toNat * 2 ^ 24 + (bs.getD 1 0).toNat * 2 ^ 16 +
    (bs.getD 2 0).toNat * 2 ^ 8 + (bs.getD 3 0).toNat
  if v < 2 ^ 31 then (v : Int) else (v : Int) - 2 ^ 32

/-- `read_i32` from `parse_embedded_optimized.rs`: read 4 bytes big-endian. -/
def read_i32 (c : Cursor) : Except Error (Int × Cursor) :=
  match cursor_read_exact c 4 "i32" with
  | .error e => .error e
  | .ok (buf, c) => .ok (i32_from_be_bytes buf, c)

/-- `read_string` from `parse_embedded_optimized.rs`: a length-prefixed
UTF-8 string (`len:i32` then `len` bytes validated by `String::from_utf8`). -/
def read_string (c : Cursor) : Except Error (RString × Cursor) :=
  match read_i32 c with
  | .error e => .error e
  | .ok (len, c) =>
    match cursor_read_exact c (rust_as_usize len) "string data" with
    | .error e => .error e
    | .ok (buf, c) =>
      if h : utf8_valid buf = true then .ok (⟨buf, h⟩, c)
      else .error (Error.ParseError "Failed to decode string as UTF-8: invalid utf-8 sequence")

/-- The per-document loop body of `unpack_optimized_data`, iterated `n` times
(the Rust `for _ in 0..count` loop; documents are accumulated in order). -/
def unpack_docs : Nat → Cursor → Except Error (List EmbeddedDocument × Cursor)
  | 0, c => .ok ([], c)
  | n + 1, c =>
    match read_string c with
    | .error e => .error e
    | .ok (resource_name, c) =>
      match read_string c with
      | .error e => .error e
      | .ok (content_type, c) =>
        match read_string c with
        | .error e => .error e
        | .ok (rel_id, c) =>
          let embedded_relationship_id := if rel_id.val.isEmpty then none else some rel_id
          match read_i32 c with
          | .error e => .error e
          | .ok (content_len, c) =>
            match cursor_read_exact c (rust_as_usize content_len) "content" with
            | .error e => .error e
            | .ok (content, c) =>
              match unpack_docs n c with
              | .error e => .error e
              | .ok (rest, c) =>
                .ok ({ resource_name := resource_name, content_type := content_type,
                       content := content,
                       embedded_relationship_id := embedded_relationship_id } :: rest, c)

/-- `unpack_optimized_data` from `parse_embedded_optimized.rs`: before any
read, the source runs `Vec::with_capacity(expected_count as usize)` (line 86),
which panics with a capacity overflow whenever the requested byte size exceeds
`isize::MAX` — with an element size of at least one byte, every capacity above
`isize::MAX` certainly panics, and a capacity cast from an `i32` is otherwise
below `2^31`, far under overflow for the actual element size; the panic is
modelled as `none`.  The surviving path reads the document count, checks it
against the independently supplied `expected_count`, then decodes that many
document frames. -/
def unpack_optimized_data (data : List UInt8) (expected_count : Int) :
    Option (Except Error (List EmbeddedDocument)) :=
  if 2 ^ 63 - 1 < rust_as_usize expected_count then none
  else some (
    match read_i32 ⟨data, 0⟩ with
    | .error e => .error e
    | .ok (count, c) =>
      if count ≠ expected_count then
        .error (Error.ParseError ("Document count mismatch: expected " ++
          toString expected_count ++ ", got " ++ toString count))
      else
        match unpack_docs count.toNat c with
        | .error e => .error e
        | .ok (documents, _) => .ok documents)

/-- Big-endian bytes of an `i32` value (`n` taken modulo `2^32`). -/
def i32_to_be_bytes (n : Int) : List UInt8 :=
  let v := (n % (2 ^ 32 : Int)).toNat
  [UInt8.ofNat (v / 2 ^ 24), UInt8.ofNat (v / 2 ^ 16 % 256),
   UInt8.ofNat (v / 2 ^ 8 % 256), UInt8.ofNat (v % 256)]

/-- Modelled from the spec: the encoder half of the packed-buffer codec lives
on the Java side (`ai.yobix.OptimizedEmbeddedExtractor`), not under `src/`;
the spec (§4.3) fixes the wire format `LPString := len:i32 utf8bytes`. -/
def encode_lpstring (s : RString) : List UInt8 :=
  i32_to_be_bytes s.val.length ++ s.val

/-- Modelled from the spec (§4.3): one document frame
`name type relId contentLen content`; an absent relationship id is written as
the empty string. -/
def encode_document (d : EmbeddedDocument) : List UInt8 :=
  encode_lpstring d.resource_name ++ encode_lpstring d.content_type ++
  encode_lpstring (d.embedded_relationship_id.getD RString.empty) ++
  i32_to_be_bytes d.content.length ++ d.content

/-- Modelled from the spec (§4.3): the whole packed buffer
`count:i32 document*`. -/
def pack_optimized_data (docs : List EmbeddedDocument) : List UInt8 :=
  i32_to_be_bytes docs.length ++ (docs.map encode_document).flatten

/-- The documented lossy normalization of the wire format: an empty
relationship-id string decodes as absent. -/
def normalize_rel_id (d : EmbeddedDocument) : EmbeddedDocument :=
  { d with embedded_relationship_id :=
      match d.embedded_relationship_id with
      | some r => if r.val.isEmpty then none else some r
      | none => none }

/-- Well-formedness of a document for round-tripping: every length fits in a
(nonnegative) `i32`. -/
def doc_wf (d : EmbeddedDocument) : Prop :=
  d.resource_name.val.length < 2 ^ 31 ∧ d.content_type.val.length < 2 ^ 31 ∧
  (d.embedded_relationship_id.getD RString.empty).val.length < 2 ^ 31 ∧
  d.content.length < 2 ^ 31

instance (d : EmbeddedDocument) : Decidable (doc_wf d) := by
  unfold doc_wf; infer_instance

/-! ## StreamingReader (`wrappers.rs`: `JReaderInputStream`) -/

/-- `DEFAULT_BUF_SIZE` (the initial scratch capacity used by
`JReaderInputStream::new`). -/
def DEFAULT_BUF_SIZE : Nat := 32768

/-- The mutable state of a `JReaderInputStream`: the Java scratch byte array
(contents) and the recorded capacity (`jsize`). -/
structure JReaderState where
  buffer : List UInt8
  capacity : Int
deriving DecidableEq

/-- `JReaderInputStream::new`: allocate a fresh zeroed scratch array of
`DEFAULT_BUF_SIZE`. -/
def jreader_new : JReaderState :=
  { buffer := List.replicate DEFAULT_BUF_SIZE 0, capacity := (DEFAULT_BUF_SIZE : Int) }

/-- The capacity-growth step at the top of `JReaderInputStream::read`: when the
request exceeds the current capacity, a fresh (zeroed) Java array of exactly
the requested size replaces the scratch buffer; otherwise nothing changes. -/
def jreader_grow (st : JReaderState) (length : Int) : JReaderState :=
  if length > st.capacity then
    { buffer := List.replicate length.toNat 0, capacity := length }
  else st

/-- `JReaderInputStream::read`.  `foreign` models the Java
`read(byte[], int, int)` call: given the requested length and the scratch
array it is handed, it returns the reported byte count (`-1` = end of stream)
and the scratch array contents afterwards.  The subsequent
`get_byte_array_region` copies `buf.len()` bytes of the scratch array into the
caller's buffer (returned as the third component); the second component is the
returned byte count after the `-1 ↦ 0` translation. -/
def jreader_read (st : JReaderState) (buf : List UInt8)
    (foreign : Int → List UInt8 → Int × List UInt8) :
    JReaderState × Nat × List UInt8 :=
  let length := jsize_of_usize buf.length
  let st1 := jreader_grow st length
  let res := foreign length st1.buffer
  let num_read_bytes := res.1
  let out := res.2.take buf.length
  let ret := if num_read_bytes = -1 then 0 else rust_as_usize num_read_bytes
  ({ buffer := res.2, capacity := st1.capacity }, ret, out)

/-- `impl Drop for JReaderInputStream`: re-attach to the VM; when (and only
when) that succeeds, invoke the Java `close` once, discarding its result
(`.ok()`).  Returns the foreign calls issued. -/
def jreader_drop (attach_ok : Bool) (close_result : Except Error Unit) : List String :=
  if attach_ok then ["close"] else []

/-- One whole reader lifetime: some number of reads followed by the single
drop (Rust runs `drop` exactly once on every exit path).  Returns the trace of
foreign operations. -/
def jreader_lifecycle (num_reads : Nat) (attach_ok : Bool)
    (close_result : Except Error Unit) : List String :=
  List.replicate num_reads "read" ++ jreader_drop attach_ok close_result

/-! ## Result unmarshalers (`wrappers.rs`), instrumented with the trace of
Java accessor calls in invocation order. -/

/-- The foreign `ai.yobix.StringResult` object, by the values its accessors
would return. -/
structure JStringEnvelope where
  is_error : Bool
  status : Int
  error_message : String
  content : String
  metadata : Metadata

/-- The Rust `JStringResult` payload. -/
structure JStringResult where
  content : String
  metadata : Metadata
deriving DecidableEq

/-- `JStringResult::new` (`wrappers.rs` lines 116–147): check `isError` first;
on error map status 1 ↦ `IoError`, 2 ↦ `ParseError`, anything else ↦
`Unknown`, carrying the envelope message; on success read content and
metadata.  First component: the Java accessor calls made. -/
def jstring_result_new (o : JStringEnvelope) : List String × Except Error JStringResult :=
  if o.is_error then
    (["isError", "getStatus", "getErrorMessage"],
     .error (match o.status with
       | 1 => Error.IoError o.error_message
       | 2 => Error.ParseError o.error_message
       | _ => Error.Unknown o.error_message))
  else
    (["isError", "getContent", "getMetadata"],
     .ok { content := o.content, metadata := o.metadata })

/-- The foreign `ai.yobix.ReaderResult` object, by the values its accessors
would return.  `reader` models the handle of the Java
`org.apache.commons.io.input.ReaderInputStream` object `getReader` returns. -/
structure JReaderEnvelope where
  is_error : Bool
  status : Int
  error_message : String
  reader : Nat
  metadata : Metadata

/-- The Rust `JReaderResult` payload (`wrappers.rs`): the saved Java reader
object plus the unmarshaled metadata. -/
structure JReaderResult where
  java_reader : Nat
  metadata : Metadata
deriving DecidableEq

/-- `JReaderResult::new` (`wrappers.rs` lines 157–198): check `isError` first;
on error map status 1 ↦ `IoError`, 2 ↦ `ParseError`, anything else ↦
`Unknown`, carrying the envelope message; on success read the reader handle
and the metadata.  First component: the Java accessor calls made. -/
def jreader_result_new (o : JReaderEnvelope) : List String × Except Error JReaderResult :=
  if o.is_error then
    (["isError", "getStatus", "getErrorMessage"],
     .error (match o.status with
       | 1 => Error.IoError o.error_message
       | 2 => Error.ParseError o.error_message
       | _ => Error.Unknown o.error_message))
  else
    (["isError", "getReader", "getMetadata"],
     .ok { java_reader := o.reader, metadata := o.metadata })

/-- The foreign `ai.yobix.EmbeddedExtractResult$EmbeddedDocument` object.
`content`/`embedded_relationship_id` are `none` when the Java reference is
null. -/
structure JEnvEmbeddedDoc where
  resource_name : RString
  content_type : RString
  content : Option (List UInt8)
  embedded_relationship_id : Option RString

/-- The Rust `JEmbeddedDocument` struct (`wrappers.rs`). -/
structure JEmbeddedDocument where
  resource_name : RString
  content_type : RString
  content : List UInt8
  embedded_relationship_id : Option RString
deriving DecidableEq

/-- `JEmbeddedDocument::new`: four field accessors; a null content array
becomes `Vec::new()`, a null relationship id becomes `None`. -/
def jembedded_document_new (o : JEnvEmbeddedDoc) : List String × JEmbeddedDocument :=
  (["getResourceName", "getContentType", "getContent", "getEmbeddedRelationshipId"],
   { resource_name := o.resource_name, content_type := o.content_type,
     content := o.content.getD [],
     embedded_relationship_id := o.embedded_relationship_id })

/-- The foreign `ai.yobix.EmbeddedExtractResult` object.  `parent_metadata`
is the parent-document metadata the foreign runtime produced (spec §4.5);
the unmarshaler never queries it. -/
structure JEnvEmbedded where
  error_code : Int
  error_message : Option String
  embedded_documents : List JEnvEmbeddedDoc
  parent_metadata : Metadata

/-- The Rust `JEmbeddedExtractResult` struct (`wrappers.rs`). -/
structure JEmbeddedExtractResult where
  error_code : Nat
  error_message : Option String
  documents : List JEmbeddedDocument
  metadata : Metadata
deriving DecidableEq

/-- `JEmbeddedExtractResult::new` (`wrappers.rs` lines 423–483): read the
error code (`i8 as u8`), the error message when the code is nonzero, then —
unconditionally — the embedded-documents list, its size and every element.
The source sets `metadata = Metadata::new()` ("For now, we'll create empty
metadata / TODO: Get metadata from parent document if needed"). -/
def jembedded_extract_result_new (o : JEnvEmbedded) :
    List String × JEmbeddedExtractResult :=
  let error_code := u8_of_i8 o.error_code
  let tr_msg : List String := if error_code ≠ 0 then ["getErrorMessage"] else []
  let error_message : Option String := if error_code ≠ 0 then o.error_message else none
  let unmarshaled := o.embedded_documents.map jembedded_document_new
  ("getErrorCode" :: tr_msg ++ ["getEmbeddedDocuments", "size"] ++
     (unmarshaled.map (fun p => "get" :: p.1)).flatten,
   { error_code := error_code, error_message := error_message,
     documents := unmarshaled.map Prod.snd, metadata := [] })

/-- The foreign `ai.yobix.OptimizedEmbeddedExtractor$OptimizedResult` object.
`packed_data` models the `ByteBuffer` by its byte content (`none` = null). -/
structure JEnvOptimized where
  error_code : Int
  error_message : Option String
  document_count : Int
  packed_data : Option (List UInt8)

/-- The Rust `JOptimizedResult` struct (`wrappers.rs`). -/
structure JOptimizedResult where
  error_code : Nat
  error_message : Option String
  packed_data : Option (List UInt8)
  document_count : Int
deriving DecidableEq

/-- `JOptimizedResult::new` (`wrappers.rs` lines 552–625): error code first,
error message when nonzero, then — unconditionally — the document count; the
packed buffer is fetched (capacity / rewind / bulk get) only when the error
code is zero and the buffer reference is non-null. -/
def joptimized_result_new (o : JEnvOptimized) : List String × JOptimizedResult :=
  let error_code := u8_of_i8 o.error_code
  let tr_msg : List String := if error_code ≠ 0 then ["getErrorMessage"] else []
  let error_message : Option String := if error_code ≠ 0 then o.error_message else none
  let tr_pd : List String :=
    if error_code = 0 then
      match o.packed_data with
      | some _ => ["getPackedData", "capacity", "rewind", "get"]
      | none => ["getPackedData"]
    else []
  let packed_data : Option (List UInt8) :=
    if error_code = 0 then o.packed_data else none
  ("getErrorCode" :: tr_msg ++ ["getDocumentCount"] ++ tr_pd,
   { error_code := error_code, error_message := error_message,
     packed_data := packed_data, document_count := o.document_count })

/-! ## Extraction strategies (`parse_embedded.rs`, `parse_embedded_optimized.rs`) -/

/-- `extract_embedded_from_file` (`parse_embedded.rs` lines 16–81), from the
point where the foreign call has produced its result object: unmarshal it,
fail with `ParseError` (message defaulted to a synthetic one naming the code)
whenever the error code is nonzero, otherwise convert the documents and keep
the (empty) metadata.  First component: the Java accessor calls made. -/
def extract_embedded_from_file (o : JEnvEmbedded) :
    List String × Except Error EmbeddedExtractResult :=
  let tr_j := jembedded_extract_result_new o
  let j_result := tr_j.2
  if j_result.error_code ≠ 0 then
    (tr_j.1, .error (Error.ParseError (j_result.error_message.getD
      ("Embedded extraction failed with code " ++ toString j_result.error_code))))
  else
    (tr_j.1, .ok
      { documents := j_result.documents.map (fun j_doc =>
          { resource_name := j_doc.resource_name, content_type := j_doc.content_type,
            content := j_doc.content,
            embedded_relationship_id := j_doc.embedded_relationship_id }),
        metadata := j_result.metadata })

/-- `extract_embedded_from_bytes` (`parse_embedded.rs` lines 84–153): identical
result handling to `extract_embedded_from_file` except for the synthetic
message text. -/
def extract_embedded_from_bytes (o : JEnvEmbedded) :
    List String × Except Error EmbeddedExtractResult :=
  let tr_j := jembedded_extract_result_new o
  let j_result := tr_j.2
  if j_result.error_code ≠ 0 then
    (tr_j.1, .error (Error.ParseError (j_result.error_message.getD
      ("Embedded extraction from bytes failed with code " ++ toString j_result.error_code))))
  else
    (tr_j.1, .ok
      { documents := j_result.documents.map (fun j_doc =>
          { resource_name := j_doc.resource_name, content_type := j_doc.content_type,
            content := j_doc.content,
            embedded_relationship_id := j_doc.embedded_relationship_id }),
        metadata := j_result.metadata })

/-- `extract_embedded_optimized` (`parse_embedded_optimized.rs` lines 17–81),
from the unmarshal onwards: nonzero error code fails with `ParseError`
(synthetic message when absent); a missing buffer fails; otherwise the packed
buffer is decoded against the reported document count (a decode panic
propagates as a panic, `none`) and the metadata is `HashMap::new()`. -/
def extract_embedded_optimized (o : JEnvOptimized) :
    List String × Option (Except Error EmbeddedExtractResult) :=
  let tr_j := joptimized_result_new o
  let j_result := tr_j.2
  if j_result.error_code ≠ 0 then
    (tr_j.1, some (.error (Error.ParseError (j_result.error_message.getD
      ("Optimized embedded extraction failed with code " ++ toString j_result.error_code)))))
  else
    match j_result.packed_data with
    | none => (tr_j.1, some (.error
        (Error.ParseError "No packed data returned from optimized extraction")))
    | some packed_data =>
      match unpack_optimized_data packed_data j_result.document_count with
      | none => (tr_j.1, none)
      | some (.error e) => (tr_j.1, some (.error e))
      | some (.ok documents) =>
        (tr_j.1, some (.ok { documents := documents, metadata := [] }))

/-! ## Batch/streaming decorator (`parse_embedded_batch.rs`) -/

/-- The batching loop of `extract_embedded_streaming` (`parse_embedded_batch.rs`
lines 38–58).  `cb k batch` models the `FnMut` callback's behaviour at its
`k`-th invocation.  Returns the list of batches passed to the callback (in
order) and the overall result: the loop pushes each document, flushes whenever
`batch.len() >= batch_size` (stopping on `Ok(false)`, propagating errors), and
delivers a final non-empty partial batch. -/
def stream_batches_go (cb : Nat → List EmbeddedDocument → Except Error Bool)
    (batch_size : Nat) :
    List EmbeddedDocument → List EmbeddedDocument → Nat →
    List (List EmbeddedDocument) × Except Error Unit
  | [], batch, k =>
    if batch.isEmpty then ([], .ok ())
    else
      match cb k batch with
      | .error e => ([batch], .error e)
      | .ok _ => ([batch], .ok ())
  | doc :: rest, batch, k =>
    let batch1 := batch ++ [doc]
    if batch1.length ≥ batch_size then
      match cb k batch1 with
      | .error e => ([batch1], .error e)
      | .ok true =>
        let res := stream_batches_go cb batch_size rest [] (k + 1)
        (batch1 :: res.1, res.2)
      | .ok false => ([batch1], .ok ())
    else
      stream_batches_go cb batch_size rest batch1 k

/-- `extract_embedded_streaming` applied to the document sequence the eager
optimized extraction produced: batch from an empty accumulator, first
callback invocation numbered 0. -/
def extract_embedded_streaming (docs : List EmbeddedDocument)
    (cb : Nat → List EmbeddedDocument → Except Error Bool) (batch_size : Nat) :
    List (List EmbeddedDocument) × Except Error Unit :=
  stream_batches_go cb batch_size docs [] 0

/-- Decode-step specification used to reason about truncation: running `f` on
`data` from position `p` succeeds with value `x` ending at position `q`,
and on any truncation `data.take k` it still succeeds (unchanged) when the
step fits (`q ≤ k`) but fails with a `ParseError` when the truncation point
lies inside the step (`p ≤ k < q`). -/
def TruncSpec {α : Type} (f : Cursor → Except Error (α × Cursor))
    (data : List UInt8) (p : Nat) (x : α) (q : Nat) : Prop :=
  f ⟨data, p⟩ = .ok (x, ⟨data, q⟩) ∧ p ≤ q ∧ q ≤ data.length ∧
  ∀ k : Nat,
    (q ≤ k → f ⟨data.take k, p⟩ = .ok (x, ⟨data.take k, q⟩)) ∧
    (p ≤ k → k < q → ∃ msg, f ⟨data.take k, p⟩ = .error (Error.ParseError msg))

/-- A concrete document used to instantiate theorems on sample data. -/
def sample_doc (c : List UInt8) : EmbeddedDocument :=
  { resource_name := RString.empty, content_type := RString.empty,
    content := c, embedded_relationship_id := none }

/-! ## Theorems -/

/-- C1 counterexample: an embedded-extraction envelope with the error flag
set and status 1 is mapped to `ParseError`, not to `IoError` as the claim
requires. -/
theorem C1_counterexample :
    u8_of_i8 (1 : Int) ≠ 0 ∧
    (extract_embedded_from_file
        { error_code := 1, error_message := some "disk failure",
          embedded_documents := [], parent_metadata := [] }).2 =
      .error (Error.ParseError "disk failure") ∧
    Error.ParseError "disk failure" ≠ Error.IoError "disk failure" := by
  decide

/-- C1 (amended): the status-exhaustive mapping (1 ↦ `IoError`, 2 ↦
`ParseError`, other nonzero ↦ `Unknown`, carrying the envelope message) is
performed by the string-result and reader-result unmarshalers; the embedded
and optimized extraction operations instead map every nonzero error code to
`ParseError`, substituting a synthetic message that includes the status code
when the envelope message is absent. -/
theorem C1_error_mapping :
    (∀ o : JStringEnvelope, o.is_error = true →
      (jstring_result_new o).2 = .error (
        if o.status = 1 then Error.IoError o.error_message
        else if o.status = 2 then Error.ParseError o.error_message
        else Error.Unknown o.error_message)) ∧
    (∀ o : JReaderEnvelope, o.is_error = true →
      (jreader_result_new o).2 = .error (
        if o.status = 1 then Error.IoError o.error_message
        else if o.status = 2 then Error.ParseError o.error_message
        else Error.Unknown o.error_message)) ∧
    (∀ o : JEnvEmbedded, u8_of_i8 o.error_code ≠ 0 →
      (extract_embedded_from_file o).2 = .error (Error.ParseError
        (o.error_message.getD
          ("Embedded extraction failed with code " ++ toString (u8_of_i8 o.error_code))))) ∧
    (∀ o : JEnvOptimized, u8_of_i8 o.error_code ≠ 0 →
      (extract_embedded_optimized o).2 = some (.error (Error.ParseError
        (o.error_message.getD
          ("Optimized embedded extraction failed with code " ++
            toString (u8_of_i8 o.error_code)))))) := by
  refine ⟨fun o h => ?_, fun o h => ?_, fun o h => ?_, fun o h => ?_⟩
  · simp only [jstring_result_new, h, if_true]
    congr 1
    split <;> simp_all
  · simp only [jreader_result_new, h, if_true]
    congr 1
    split <;> simp_all
  · simp [extract_embedded_from_file, jembedded_extract_result_new, h]
  · simp [extract_embedded_optimized, joptimized_result_new, h]

/-- C1 witness: the amended mapping evaluated at concrete envelopes. -/
theorem C1_witness :
    (jstring_result_new
        { is_error := true, status := 1, error_message := "io boom",
          content := "", metadata := [] }).2 =
      .error (if (1 : Int) = 1 then Error.IoError "io boom"
        else if (1 : Int) = 2 then Error.ParseError "io boom"
        else Error.Unknown "io boom") ∧
    (jreader_result_new
        { is_error := true, status := 2, error_message := "bad xml",
          reader := 0, metadata := [] }).2 =
      .error (if (2 : Int) = 1 then Error.IoError "bad xml"
        else if (2 : Int) = 2 then Error.ParseError "bad xml"
        else Error.Unknown "bad xml") ∧
    (extract_embedded_from_file
        { error_code := 3, error_message := none,
          embedded_documents := [], parent_metadata := [] }).2 =
      .error (Error.ParseError
        ((none : Option String).getD
          ("Embedded extraction failed with code " ++ toString (u8_of_i8 (3 : Int))))) :=
  ⟨C1_error_mapping.1 _ rfl, C1_error_mapping.2.1 _ rfl,
   C1_error_mapping.2.2.1 _ (by decide)⟩

/-- C2 counterexample: an embedded-extraction envelope reporting error code 2
still has its success-payload accessor `getEmbeddedDocuments` invoked by the
unmarshaler, contradicting "no payload accessor is ever called". -/
theorem C2_counterexample :
    u8_of_i8 (2 : Int) ≠ 0 ∧
    "getEmbeddedDocuments" ∈ (jembedded_extract_result_new
      { error_code := 2, error_message := some "boom",
        embedded_documents := [], parent_metadata := [] }).1 := by
  decide

/-- C2 (amended): every unmarshaler reads the error status first; the
string-result and reader-result unmarshalers touch no payload accessor on
error, and the optimized unmarshaler guards the packed-buffer accessor on a
zero error code — but the embedded-list unmarshaler invokes its
documents-list accessor, and the optimized unmarshaler its document-count
accessor, unconditionally. -/
theorem C2_envelope_check_order :
    (∀ o : JEnvEmbedded, ((jembedded_extract_result_new o).1).head? = some "getErrorCode") ∧
    (∀ o : JEnvOptimized, ((joptimized_result_new o).1).head? = some "getErrorCode") ∧
    (∀ o : JStringEnvelope, ((jstring_result_new o).1).head? = some "isError") ∧
    (∀ o : JReaderEnvelope, ((jreader_result_new o).1).head? = some "isError") ∧
    (∀ o : JStringEnvelope, o.is_error = true →
      (jstring_result_new o).1 = ["isError", "getStatus", "getErrorMessage"]) ∧
    (∀ o : JReaderEnvelope, o.is_error = true →
      (jreader_result_new o).1 = ["isError", "getStatus", "getErrorMessage"]) ∧
    (∀ o : JEnvOptimized, u8_of_i8 o.error_code ≠ 0 →
      "getPackedData" ∉ (joptimized_result_new o).1) ∧
    (∀ o : JEnvEmbedded, "getEmbeddedDocuments" ∈ (jembedded_extract_result_new o).1) ∧
    (∀ o : JEnvOptimized, "getDocumentCount" ∈ (joptimized_result_new o).1) := by
  refine ⟨fun o => ?_, fun o => ?_, fun o => ?_, fun o => ?_, fun o h => ?_,
    fun o h => ?_, fun o h => ?_, fun o => ?_, fun o => ?_⟩
  · simp [jembedded_extract_result_new]
  · simp [joptimized_result_new]
  · rcases h : o.is_error <;> simp [jstring_result_new, h]
  · rcases h : o.is_error <;> simp [jreader_result_new, h]
  · simp [jstring_result_new, h]
  · simp [jreader_result_new, h]
  · simp [joptimized_result_new, h]
  · simp [jembedded_extract_result_new]
  · rcases o.packed_data with _ | _ <;> by_cases h : u8_of_i8 o.error_code = 0 <;>
      simp_all [joptimized_result_new]

/-- C2 witness: the amended ordering facts at concrete envelopes. -/
theorem C2_witness :
    (jstring_result_new
        { is_error := true, status := 2, error_message := "bad",
          content := "", metadata := [] }).1 =
      ["isError", "getStatus", "getErrorMessage"] ∧
    (jreader_result_new
        { is_error := true, status := 1, error_message := "gone",
          reader := 0, metadata := [] }).1 =
      ["isError", "getStatus", "getErrorMessage"] ∧
    "getPackedData" ∉ (joptimized_result_new
        { error_code := 1, error_message := some "bad",
          document_count := 0, packed_data := some [] }).1 :=
  ⟨C2_envelope_check_order.2.2.2.2.1 _ rfl,
   C2_envelope_check_order.2.2.2.2.2.1 _ rfl,
   C2_envelope_check_order.2.2.2.2.2.2.1 _ (by decide)⟩

/-- C4 counterexample: a successful direct-list extraction whose foreign
envelope carries non-empty parent metadata nevertheless returns an
`EmbeddedExtractResult` with empty metadata (the unmarshaler builds
`Metadata::new()` and never queries the foreign metadata). -/
theorem C4_counterexample :
    (extract_embedded_from_file
        { error_code := 0, error_message := none, embedded_documents := [],
          parent_metadata := [("author", ["alice"])] }).2 =
      .ok { documents := [], metadata := [] } ∧
    ([] : Metadata) ≠ [("author", ["alice"])] := by
  decide

/-- C4 (amended): every successful extraction — direct-list from file or from
bytes, and optimized alike — returns empty parent metadata; the foreign
parent metadata is never unmarshaled (explicit `TODO` in
`JEmbeddedExtractResult::new`). -/
theorem C4_metadata_always_empty :
    (∀ (o : JEnvEmbedded) (r : EmbeddedExtractResult),
      (extract_embedded_from_file o).2 = .ok r → r.metadata = []) ∧
    (∀ (o : JEnvEmbedded) (r : EmbeddedExtractResult),
      (extract_embedded_from_bytes o).2 = .ok r → r.metadata = []) ∧
    (∀ (o : JEnvOptimized) (r : EmbeddedExtractResult),
      (extract_embedded_optimized o).2 = some (.ok r) → r.metadata = []) := by
  refine ⟨fun o r h => ?_, fun o r h => ?_, fun o r h => ?_⟩
  · simp only [extract_embedded_from_file] at h
    split at h
    · simp at h
    · simp only [jembedded_extract_result_new, Except.ok.injEq] at h
      rw [← h]
  · simp only [extract_embedded_from_bytes] at h
    split at h
    · simp at h
    · simp only [jembedded_extract_result_new, Except.ok.injEq] at h
      rw [← h]
  · simp only [extract_embedded_optimized] at h
    split at h
    · simp at h
    · split at h
      · simp at h
      · split at h
        · simp at h
        · simp at h
        · simp only [Option.some.injEq, Except.ok.injEq] at h
          rw [← h]

/-- C4 witness: the amended fact applied to a concrete successful envelope. -/
theorem C4_witness :
    ({ documents := [], metadata := [] } : EmbeddedExtractResult).metadata = [] :=
  C4_metadata_always_empty.1
    { error_code := 0, error_message := none, embedded_documents := [],
      parent_metadata := [("k", ["v"])] }
    { documents := [], metadata := [] } (by decide)

/-- C8 counterexample: when the drop-time re-attachment to the runtime fails,
the reader's release issues zero foreign close operations, contradicting
"exactly one foreign close". -/
theorem C8_counterexample :
    (jreader_lifecycle 3 false (.ok ())).count "close" = 0 ∧ (0 : Nat) ≠ 1 := by
  decide

/-- C8 (amended): releasing a `JReaderInputStream` issues at most one foreign
close — exactly one whenever the drop-time thread attachment succeeds,
regardless of how many reads preceded it — and the close outcome is swallowed
(the drop behaves identically whatever the close result is). -/
theorem C8_close_at_most_once :
    (∀ (n : Nat) (a : Bool) (r : Except Error Unit),
      (jreader_lifecycle n a r).count "close" ≤ 1) ∧
    (∀ (n : Nat) (r : Except Error Unit),
      (jreader_lifecycle n true r).count "close" = 1) ∧
    (∀ (n : Nat) (a : Bool) (r r' : Except Error Unit),
      jreader_lifecycle n a r = jreader_lifecycle n a r') := by
  refine ⟨fun n a r => ?_, fun n r => ?_, fun n a r r' => rfl⟩
  · cases a <;> simp [jreader_lifecycle, jreader_drop, List.count_replicate]
  · simp [jreader_lifecycle, jreader_drop, List.count_replicate]

/-- C3 counterexample: with scratch capacity 4 and a 4-byte caller buffer
`[9,9,9,9]`, a foreign read reporting 2 bytes still overwrites all 4 caller
bytes with scratch contents (result `[1,2,0,0]`, not `[1,2,9,9]`); and a
foreign end-of-stream (`-1`) still overwrites the caller buffer (result
`[1,2,3,4]`, not the untouched `[9,9,9,9]`) even though 0 is returned. -/
theorem C3_counterexample :
    (jreader_read ⟨[5, 6, 7, 8], 4⟩ [9, 9, 9, 9] (fun _ _ => (2, [1, 2, 0, 0]))).2 =
      (2, ([1, 2, 0, 0] : List UInt8)) ∧
    ([1, 2, 0, 0] : List UInt8) ≠ [1, 2, 9, 9] ∧
    (jreader_read ⟨[5, 6, 7, 8], 4⟩ [9, 9, 9, 9] (fun _ _ => (-1, [1, 2, 3, 4]))).2 =
      (0, ([1, 2, 3, 4] : List UInt8)) ∧
    ([1, 2, 3, 4] : List UInt8) ≠ [9, 9, 9, 9] := by
  decide

/-- C3 (amended): after the foreign read reports `n`, the call returns `n`
(`-1` translated to 0, not an error), but `get_byte_array_region` always
copies the first `buf.len()` bytes of the scratch array into the caller
buffer — the first `n` of them being the bytes read — rather than exactly
`n` bytes. -/
theorem C3_read_return_and_copy :
    ∀ (st : JReaderState) (buf : List UInt8)
      (foreign : Int → List UInt8 → Int × List UInt8) (n : Int) (arr : List UInt8),
      foreign (jsize_of_usize buf.length)
          (jreader_grow st (jsize_of_usize buf.length)).buffer = (n, arr) →
      (jreader_read st buf foreign).2.2 = arr.take buf.length ∧
      (n = -1 → (jreader_read st buf foreign).2.1 = 0) ∧
      (n ≠ -1 → (jreader_read st buf foreign).2.1 = rust_as_usize n) ∧
      (0 ≤ n → n < 2 ^ 64 → (jreader_read st buf foreign).2.1 = n.toNat) := by
  intro st buf foreign n arr h
  refine ⟨?_, fun h1 => ?_, fun h1 => ?_, fun h0 h1 => ?_⟩
  · simp [jreader_read, h]
  · simp [jreader_read, h, h1]
  · simp [jreader_read, h, h1, rust_as_usize]
  · simp only [jreader_read, h]
    rw [if_neg (by omega : ¬ n = -1)]
    unfold rust_as_usize
    omega

/-- C3 witness: the amended read semantics at a concrete state and foreign
outcome. -/
theorem C3_witness :
    (jreader_read ⟨[0, 0, 0], 3⟩ [9, 9, 9] (fun _ _ => (3, [7, 8, 9]))).2.2 =
      ([7, 8, 9] : List UInt8).take 3 ∧
    (jreader_read ⟨[0, 0, 0], 3⟩ [9, 9, 9] (fun _ _ => (3, [7, 8, 9]))).2.1 =
      (3 : Int).toNat :=
  ⟨(C3_read_return_and_copy ⟨[0, 0, 0], 3⟩ [9, 9, 9] _ 3 [7, 8, 9] rfl).1,
   (C3_read_return_and_copy ⟨[0, 0, 0], 3⟩ [9, 9, 9] _ 3 [7, 8, 9] rfl).2.2.2
     (by decide) (by decide)⟩

/-- C7 (confirmed): the scratch capacity is monotonically non-decreasing; a
request strictly larger than the capacity grows it (and the scratch array) to
exactly the requested size before the foreign read is delegated to, a request
no larger leaves the state untouched, a read leaves the capacity at the grown
value, and the `usize → jsize` cast is the identity for realistic buffer
sizes. -/
theorem C7_capacity_growth :
    (∀ (st : JReaderState) (l : Int), st.capacity ≤ (jreader_grow st l).capacity) ∧
    (∀ (st : JReaderState) (l : Int), st.capacity < l →
      (jreader_grow st l).capacity = l ∧ (jreader_grow st l).buffer.length = l.toNat) ∧
    (∀ (st : JReaderState) (l : Int), l ≤ st.capacity → jreader_grow st l = st) ∧
    (∀ (st : JReaderState) (buf : List UInt8)
      (foreign : Int → List UInt8 → Int × List UInt8),
      (jreader_read st buf foreign).1.capacity =
        (jreader_grow st (jsize_of_usize buf.length)).capacity) ∧
    (∀ n : Nat, n < 2 ^ 31 → jsize_of_usize n = n) ∧
    (∀ (st : JReaderState) (ls : List Int),
      st.capacity ≤ (ls.foldl jreader_grow st).capacity) := by
  have hmono : ∀ (st : JReaderState) (l : Int), st.capacity ≤ (jreader_grow st l).capacity := by
    intro st l
    unfold jreader_grow
    split
    · next hlt => exact le_of_lt hlt
    · exact le_refl _
  refine ⟨hmono, fun st l h => ?_, fun st l h => ?_, fun st buf foreign => rfl,
    fun n h => ?_, fun st ls => ?_⟩
  · unfold jreader_grow
    rw [if_pos h]
    exact ⟨rfl, by simp⟩
  · unfold jreader_grow
    rw [if_neg (not_lt.mpr h)]
  · unfold jsize_of_usize
    have h32 : n % 2 ^ 32 = n := Nat.mod_eq_of_lt (by omega)
    rw [if_pos (by omega)]
    omega
  · induction ls generalizing st with
    | nil => exact le_refl _
    | cons l ls ih => exact le_trans (hmono st l) (ih (jreader_grow st l))

/-- C7 witness: the growth law at concrete states — an 8-byte request against
capacity 4 grows to exactly 8; a 2-byte request against capacity 4 changes
nothing; the jsize cast is the identity at 100. -/
theorem C7_witness :
    (jreader_grow ⟨List.replicate 4 0, 4⟩ 8).capacity = 8 ∧
    (jreader_grow ⟨List.replicate 4 0, 4⟩ 8).buffer.length = (8 : Int).toNat ∧
    jreader_grow ⟨List.replicate 4 0, 4⟩ 2 = ⟨List.replicate 4 0, 4⟩ ∧
    jsize_of_usize 100 = 100 :=
  ⟨(C7_capacity_growth.2.1 ⟨List.replicate 4 0, 4⟩ 8 (by decide)).1,
   (C7_capacity_growth.2.1 ⟨List.replicate 4 0, 4⟩ 8 (by decide)).2,
   C7_capacity_growth.2.2.1 ⟨List.replicate 4 0, 4⟩ 2 (by decide),
   C7_capacity_growth.2.2.2.2.1 100 (by decide)⟩

/-- Helper: every batch the loop delivers has at most `batch_size` documents
(given the accumulator invariant `batch.length < batch_size`). -/
theorem stream_go_batch_le (cb : Nat → List EmbeddedDocument → Except Error Bool)
    (B : Nat) (hB : 1 ≤ B) :
    ∀ (rest batch : List EmbeddedDocument) (k : Nat), batch.length < B →
      ∀ b ∈ (stream_batches_go cb B rest batch k).1, b.length ≤ B := by
  intro rest
  induction rest with
  | nil =>
    intro batch k hlen b hb
    simp only [stream_batches_go] at hb
    split at hb
    · simp at hb
    · split at hb <;> simp only [List.mem_singleton] at hb <;> subst hb <;> omega
  | cons doc rest ih =>
    intro batch k hlen b hb
    simp only [stream_batches_go] at hb
    split at hb
    · split at hb
      · simp only [List.mem_singleton] at hb
        subst hb
        simp only [List.length_append, List.length_singleton]
        omega
      · simp only [List.mem_cons] at hb
        rcases hb with hb | hb
        · subst hb
          simp only [List.length_append, List.length_singleton]
          omega
        · exact ih [] (k + 1) (by simp only [List.length_nil]; omega) b hb
      · simp only [List.mem_singleton] at hb
        subst hb
        simp only [List.length_append, List.length_singleton]
        omega
    · next hflush =>
      refine ih (batch ++ [doc]) k ?_ b hb
      simp only [List.length_append, List.length_singleton] at hflush ⊢
      omega

/-- Helper: the concatenation of the delivered batches is a prefix of the
remaining input appended to the accumulator. -/
theorem stream_go_flatten_prefix (cb : Nat → List EmbeddedDocument → Except Error Bool)
    (B : Nat) :
    ∀ (rest batch : List EmbeddedDocument) (k : Nat),
      ∃ t, (stream_batches_go cb B rest batch k).1.flatten ++ t = batch ++ rest := by
  intro rest
  induction rest with
  | nil =>
    intro batch k
    simp only [stream_batches_go]
    split
    · next hemp =>
      rw [List.isEmpty_iff] at hemp
      exact ⟨[], by simp [hemp]⟩
    · split <;> exact ⟨[], by simp⟩
  | cons doc rest ih =>
    intro batch k
    simp only [stream_batches_go]
    split
    · split
      · exact ⟨rest, by simp⟩
      · obtain ⟨t, ht⟩ := ih [] (k + 1)
        simp only [List.nil_append] at ht
        exact ⟨t, by simp [List.append_assoc, ht]⟩
      · exact ⟨rest, by simp⟩
    · obtain ⟨t, ht⟩ := ih (batch ++ [doc]) k
      exact ⟨t, by simp [ht]⟩

/-- Helper: with an always-continue callback, the loop delivers everything, in
`ceil((|batch| + |rest|) / B)` invocations, and succeeds. -/
theorem stream_go_all_continue (cb : Nat → List EmbeddedDocument → Except Error Bool)
    (B : Nat) (hB : 1 ≤ B) (hcb : ∀ k b, cb k b = .ok true) :
    ∀ (rest batch : List EmbeddedDocument) (k : Nat), batch.length < B →
      (stream_batches_go cb B rest batch k).1.flatten = batch ++ rest ∧
      (stream_batches_go cb B rest batch k).1.length =
        (batch.length + rest.length + B - 1) / B ∧
      (stream_batches_go cb B rest batch k).2 = .ok () := by
  intro rest
  induction rest with
  | nil =>
    intro batch k hlen
    simp only [stream_batches_go]
    split
    · next hemp =>
      rw [List.isEmpty_iff] at hemp
      subst hemp
      refine ⟨rfl, ?_, rfl⟩
      simp only [List.length_nil]
      rw [Nat.div_eq_of_lt (by omega)]
    · next hemp =>
      rw [List.isEmpty_iff] at hemp
      have hpos : 1 ≤ batch.length := by
        cases batch with
        | nil => exact absurd rfl hemp
        | cons a l => simp
      rw [hcb k batch]
      refine ⟨by simp, ?_, rfl⟩
      simp only [List.length_singleton, List.length_nil]
      exact (Nat.div_eq_of_lt_le (by omega) (by omega)).symm
  | cons doc rest ih =>
    intro batch k hlen
    simp only [stream_batches_go]
    split
    · next hflush =>
      simp only [List.length_append, List.length_singleton] at hflush
      have hexact : batch.length + 1 = B := by omega
      rw [hcb k (batch ++ [doc])]
      obtain ⟨ih1, ih2, ih3⟩ := ih [] (k + 1) (by simp only [List.length_nil]; omega)
      refine ⟨?_, ?_, ih3⟩
      · simp [ih1]
      · simp only [List.length_cons, ih2]
        have harith : batch.length + (rest.length + 1) + B - 1 =
            ([] : List EmbeddedDocument).length + rest.length + B - 1 + B := by
          simp only [List.length_nil]
          omega
        rw [harith, Nat.add_div_right _ (by omega)]
    · next hflush =>
      simp only [List.length_append, List.length_singleton] at hflush
      obtain ⟨ih1, ih2, ih3⟩ := ih (batch ++ [doc]) k
        (by simp only [List.length_append, List.length_singleton]; omega)
      refine ⟨by simp [ih1], ?_, ih3⟩
      rw [ih2]
      simp only [List.length_cons]
      have harith : (batch ++ [doc]).length + rest.length + B - 1 =
          batch.length + (rest.length + 1) + B - 1 := by
        simp only [List.length_append, List.length_singleton]
        omega
      rw [harith]

/-- Helper: a callback invocation answering `Ok(false)` is the last one — the
loop short-circuits without touching later groups. -/
theorem stream_go_stop (cb : Nat → List EmbeddedDocument → Except Error Bool)
    (B : Nat) :
    ∀ (rest batch : List EmbeddedDocument) (k i : Nat) (b : List EmbeddedDocument),
      (stream_batches_go cb B rest batch k).1.get? i = some b →
      cb (k + i) b = .ok false →
      (stream_batches_go cb B rest batch k).1.length = i + 1 := by
  intro rest
  induction rest with
  | nil =>
    intro batch k i b hget hcb
    simp only [stream_batches_go] at hget ⊢
    cases hemp : batch.isEmpty with
    | true =>
      simp only [hemp, if_true] at hget
      simp at hget
    | false =>
      simp only [hemp, Bool.false_eq_true, if_false] at hget ⊢
      cases hcbv : cb k batch with
      | error e =>
        simp only [hcbv] at hget ⊢
        rcases i with _ | j
        · simp
        · simp at hget
      | ok bv =>
        simp only [hcbv] at hget ⊢
        rcases i with _ | j
        · simp
        · simp at hget
  | cons doc rest ih =>
    intro batch k i b hget hcb
    simp only [stream_batches_go] at hget ⊢
    by_cases hflush : (batch ++ [doc]).length ≥ B
    · simp only [if_pos hflush] at hget ⊢
      cases hcbv : cb k (batch ++ [doc]) with
      | error e =>
        simp only [hcbv] at hget ⊢
        rcases i with _ | j
        · simp
        · simp at hget
      | ok bv =>
        cases bv with
        | false =>
          simp only [hcbv] at hget ⊢
          rcases i with _ | j
          · simp
          · simp at hget
        | true =>
          simp only [hcbv] at hget ⊢
          rcases i with _ | j
          · simp only [List.get?_cons_zero, Option.some.injEq] at hget
            subst hget
            rw [Nat.add_zero] at hcb
            rw [hcbv] at hcb
            simp at hcb
          · simp only [List.get?_cons_succ] at hget
            have hk : k + (j + 1) = (k + 1) + j := by omega
            rw [hk] at hcb
            have hlen := ih [] (k + 1) j b hget hcb
            simp only [List.length_cons, hlen]
    · simp only [if_neg hflush] at hget ⊢
      exact ih (batch ++ [doc]) k i b hget hcb

/-- C6 (confirmed): for a document sequence of length `L` and batch size
`B ≥ 1`, every delivered batch has at most `B` documents, the concatenation of
the delivered batches is a prefix of the sequence, an always-continuing
callback is invoked exactly `⌈L/B⌉` times receiving exactly the whole
sequence in order, and a callback answering stop makes its invocation the
last one. -/
theorem C6_batching (docs : List EmbeddedDocument)
    (cb : Nat → List EmbeddedDocument → Except Error Bool) (B : Nat) (hB : 1 ≤ B) :
    (∀ b ∈ (extract_embedded_streaming docs cb B).1, b.length ≤ B) ∧
    (∃ t, (extract_embedded_streaming docs cb B).1.flatten ++ t = docs) ∧
    ((∀ k b, cb k b = .ok true) →
      (extract_embedded_streaming docs cb B).1.flatten = docs ∧
      (extract_embedded_streaming docs cb B).1.length = (docs.length + B - 1) / B ∧
      (extract_embedded_streaming docs cb B).2 = .ok ()) ∧
    (∀ (i : Nat) (b : List EmbeddedDocument),
      (extract_embedded_streaming docs cb B).1.get? i = some b →
      cb i b = .ok false →
      (extract_embedded_streaming docs cb B).1.length = i + 1) := by
  refine ⟨stream_go_batch_le cb B hB docs [] 0 (by simp only [List.length_nil]; omega),
    ?_, fun hcb => ?_, fun i b hget hcb => ?_⟩
  · simpa using stream_go_flatten_prefix cb B docs [] 0
  · have h := stream_go_all_continue cb B hB hcb docs [] 0
      (by simp only [List.length_nil]; omega)
    simpa using h
  · exact stream_go_stop cb B docs [] 0 i b hget (by simpa using hcb)

/-- C6 witness: three documents, batch size 2, always-continue callback:
two invocations (sizes 2 and 1) delivering the whole sequence in order. -/
theorem C6_witness :
    (extract_embedded_streaming [sample_doc [1], sample_doc [2], sample_doc [3]]
        (fun _ _ => .ok true) 2).1.flatten =
      [sample_doc [1], sample_doc [2], sample_doc [3]] ∧
    (extract_embedded_streaming [sample_doc [1], sample_doc [2], sample_doc [3]]
        (fun _ _ => .ok true) 2).1.length = (3 + 2 - 1) / 2 ∧
    (extract_embedded_streaming [sample_doc [1], sample_doc [2], sample_doc [3]]
        (fun _ _ => .ok true) 2).2 = .ok () := by
  have h := (C6_batching [sample_doc [1], sample_doc [2], sample_doc [3]]
    (fun _ _ => .ok true) 2 (by decide)).2.2.1 (fun _ _ => rfl)
  simpa using h

/-- Helper: with batch size 0 the flush condition `batch.len() >= 0` holds
after every push, so each document is flushed alone. -/
theorem stream_go_zero (cb : Nat → List EmbeddedDocument → Except Error Bool)
    (hcb : ∀ k b, cb k b = .ok true) :
    ∀ (rest : List EmbeddedDocument) (k : Nat),
      stream_batches_go cb 0 rest [] k = (rest.map (fun d => [d]), .ok ()) := by
  intro rest
  induction rest with
  | nil => intro k; rfl
  | cons doc rest ih =>
    intro k
    simp only [stream_batches_go, List.nil_append]
    rw [if_pos (by simp), hcb k [doc], ih (k + 1)]
    rfl

/-- C10 (confirmed): with batch size 0 the streaming extraction neither fails
nor divides by zero: an always-continuing callback is invoked once per
document, in order, each time with a singleton batch. -/
theorem C10_zero_batch_size (docs : List EmbeddedDocument)
    (cb : Nat → List EmbeddedDocument → Except Error Bool)
    (hcb : ∀ k b, cb k b = .ok true) :
    extract_embedded_streaming docs cb 0 = (docs.map (fun d => [d]), .ok ()) :=
  stream_go_zero cb hcb docs 0

/-- C10 witness: two documents, batch size 0: two singleton deliveries. -/
theorem C10_witness :
    extract_embedded_streaming [sample_doc [1], sample_doc [2]]
        (fun _ _ => .ok true) 0 =
      ([[sample_doc [1]], [sample_doc [2]]], .ok ()) :=
  C10_zero_batch_size [sample_doc [1], sample_doc [2]] _ (fun _ _ => rfl)

/-! ### Packed-buffer codec lemmas -/

/-- `(UInt8.ofNat k).toNat` wraps modulo 256. -/
theorem uint8_toNat_ofNat (k : Nat) : (UInt8.ofNat k).toNat = k % 256 := rfl

/-- An encoded `i32` occupies four bytes. -/
theorem length_i32_to_be_bytes (n : Int) : (i32_to_be_bytes n).length = 4 := by
  simp [i32_to_be_bytes]

/-- The `as usize` cast is the identity on small natural numbers. -/
theorem rust_as_usize_natCast (n : Nat) (h : n < 2 ^ 64) : rust_as_usize (n : Int) = n := by
  unfold rust_as_usize
  omega

/-- Decoding the big-endian encoding of an in-range nonnegative `i32` gives it
back. -/
theorem i32_from_be_to_be (n : Int) (h0 : 0 ≤ n) (h1 : n < 2 ^ 31) :
    i32_from_be_bytes (i32_to_be_bytes n) = n := by
  unfold i32_to_be_bytes i32_from_be_bytes
  have hv : n % (2 ^ 32 : Int) = n := Int.emod_eq_of_lt h0 (by omega)
  rw [hv]
  simp only [List.getD_cons_zero, List.getD_cons_succ, uint8_toNat_ofNat]
  have hm : n.toNat < 2 ^ 31 := by omega
  split
  · omega
  · omega

/-- An encoded length-prefixed string occupies `4 + |s|` bytes. -/
theorem length_encode_lpstring (s : RString) :
    (encode_lpstring s).length = 4 + s.val.length := by
  simp [encode_lpstring, length_i32_to_be_bytes]

/-- `TruncSpec` transports along pointwise equal decode steps. -/
theorem truncSpec_congr {α : Type} {f g : Cursor → Except Error (α × Cursor)}
    {data p x q} (hfg : ∀ c, f c = g c) (hg : TruncSpec g data p x q) :
    TruncSpec f data p x q := by
  obtain ⟨h1, h2, h3, h4⟩ := hg
  refine ⟨by rw [hfg]; exact h1, h2, h3, fun k => ⟨fun hk => ?_, fun hpk hk => ?_⟩⟩
  · rw [hfg]; exact (h4 k).1 hk
  · obtain ⟨m, hm⟩ := (h4 k).2 hpk hk
    exact ⟨m, by rw [hfg]; exact hm⟩

/-- A pure step consumes nothing and always succeeds. -/
theorem truncSpec_pure {α : Type} (v : α) (data : List UInt8) (q : Nat)
    (h : q ≤ data.length) :
    TruncSpec (fun c => .ok (v, c)) data q v q :=
  ⟨rfl, le_refl _, h, fun k => ⟨fun _ => rfl, fun h1 h2 => absurd h2 (by omega)⟩⟩

/-- Sequencing two decode steps (the `?`-propagation shape used all over
`parse_embedded_optimized.rs`) preserves the truncation specification. -/
theorem truncSpec_bind {α β : Type} {f : Cursor → Except Error (α × Cursor)}
    (g : α → Cursor → Except Error (β × Cursor)) {data p x q y r}
    (hf : TruncSpec f data p x q) (hg : TruncSpec (g x) data q y r) :
    TruncSpec (fun c =>
      match f c with
      | .error e => .error e
      | .ok (a, c1) => g a c1) data p y r := by
  obtain ⟨hf1, hfpq, hfq, hfk⟩ := hf
  obtain ⟨hg1, hgqr, hgr, hgk⟩ := hg
  refine ⟨?_, le_trans hfpq hgqr, hgr, fun k => ⟨fun hk => ?_, fun hpk hk => ?_⟩⟩
  · simp only [hf1]
    exact hg1
  · simp only [(hfk k).1 (le_trans hgqr hk)]
    exact (hgk k).1 hk
  · by_cases hq : k < q
    · obtain ⟨m, hm⟩ := (hfk k).2 hpk hq
      exact ⟨m, by simp only [hm]⟩
    · push_neg at hq
      obtain ⟨m, hm⟩ := (hgk k).2 hq hk
      refine ⟨m, ?_⟩
      simp only [(hfk k).1 hq]
      exact hm

/-- Post-composing a decode step with a pure value transformation. -/
theorem truncSpec_map {α β : Type} {f : Cursor → Except Error (α × Cursor)}
    (g : α → β) {data p x q} (hf : TruncSpec f data p x q) :
    TruncSpec (fun c =>
      match f c with
      | .error e => .error e
      | .ok (a, c1) => .ok (g a, c1)) data p (g x) q := by
  obtain ⟨hf1, hpq, hq, hfk⟩ := hf
  refine ⟨by simp only [hf1], hpq, hq, fun k => ⟨fun hk => ?_, fun hpk hk => ?_⟩⟩
  · simp only [(hfk k).1 hk]
  · obtain ⟨m, hm⟩ := (hfk k).2 hpk hk
    exact ⟨m, by simp only [hm]⟩

/-- `read_exact` of the bytes `bs` sitting at position `pre.length`. -/
theorem cursor_read_exact_spec (pre bs post : List UInt8) (w : String) :
    TruncSpec (fun c => cursor_read_exact c bs.length w)
      (pre ++ (bs ++ post)) pre.length bs (pre.length + bs.length) := by
  refine ⟨?_, Nat.le_add_right _ _, by simp, fun k => ⟨fun hk => ?_, fun hpk hk => ?_⟩⟩
  · simp only [cursor_read_exact]
    rw [if_pos (by simp)]
    rw [List.drop_left, List.take_left]
  · have hc : pre.length + bs.length ≤ ((pre ++ (bs ++ post)).take k).length := by
      rw [List.length_take]
      simp only [List.length_append]
      omega
    simp only [cursor_read_exact]
    rw [if_pos hc]
    have hval : (((pre ++ (bs ++ post)).take k).drop pre.length).take bs.length = bs := by
      rw [List.drop_take, List.take_take]
      have hmin : min bs.length (k - pre.length) = bs.length := by omega
      rw [hmin, List.drop_left, List.take_left]
    rw [hval]
  · have hc : ¬ (pre.length + bs.length ≤ ((pre ++ (bs ++ post)).take k).length) := by
      rw [List.length_take]
      simp only [List.length_append]
      omega
    simp only [cursor_read_exact]
    rw [if_neg hc]
    exact ⟨_, rfl⟩

/-- `read_i32` of an encoded in-range value sitting at position `pre.length`. -/
theorem read_i32_spec (pre post : List UInt8) (n : Int) (h0 : 0 ≤ n) (h1 : n < 2 ^ 31) :
    TruncSpec read_i32 (pre ++ (i32_to_be_bytes n ++ post)) pre.length n
      (pre.length + 4) := by
  have base := truncSpec_map i32_from_be_bytes
    (cursor_read_exact_spec pre (i32_to_be_bytes n) post "i32")
  rw [length_i32_to_be_bytes] at base
  rw [i32_from_be_to_be n h0 h1] at base
  refine truncSpec_congr (fun c => ?_) base
  unfold read_i32
  rcases cursor_read_exact c 4 "i32" with e | ⟨a, c1⟩ <;> rfl

/-- `read_string` of an encoded length-prefixed string sitting at position
`pre.length`. -/
theorem read_string_spec (pre post : List UInt8) (s : RString)
    (hs : s.val.length < 2 ^ 31) :
    TruncSpec read_string (pre ++ (encode_lpstring s ++ post)) pre.length s
      (pre.length + (4 + s.val.length)) := by
  have hassoc : encode_lpstring s ++ post =
      i32_to_be_bytes (s.val.length : Int) ++ (s.val ++ post) := by
    simp [encode_lpstring, List.append_assoc]
  rw [hassoc, show pre.length + (4 + s.val.length) = pre.length + 4 + s.val.length from
    by omega]
  have h1 := read_i32_spec pre (s.val ++ post) (s.val.length : Int)
    (Int.natCast_nonneg _) (by exact_mod_cast hs)
  have h2 := cursor_read_exact_spec (pre ++ i32_to_be_bytes (s.val.length : Int))
    s.val post "string data"
  rw [List.append_assoc] at h2
  rw [List.length_append, length_i32_to_be_bytes] at h2
  have h2cast : TruncSpec
      (fun c => cursor_read_exact c (rust_as_usize (s.val.length : Int)) "string data")
      (pre ++ (i32_to_be_bytes (s.val.length : Int) ++ (s.val ++ post)))
      (pre.length + 4) s.val (pre.length + 4 + s.val.length) :=
    truncSpec_congr (fun c => by rw [rust_as_usize_natCast _ (by omega)]) h2
  have hq : pre.length + 4 + s.val.length ≤
      (pre ++ (i32_to_be_bytes (s.val.length : Int) ++ (s.val ++ post))).length := by
    simp only [List.length_append, length_i32_to_be_bytes]
    omega
  have htail : TruncSpec
      (fun c => if h : utf8_valid s.val = true then
          .ok ((⟨s.val, h⟩ : RString), c)
        else .error
          (Error.ParseError "Failed to decode string as UTF-8: invalid utf-8 sequence"))
      (pre ++ (i32_to_be_bytes (s.val.length : Int) ++ (s.val ++ post)))
      (pre.length + 4 + s.val.length) s (pre.length + 4 + s.val.length) :=
    truncSpec_congr (fun c => by rw [dif_pos s.2])
      (truncSpec_pure s _ _ hq)
  obtain ⟨ha1, ha2, ha3, hak⟩ := h1
  obtain ⟨hb1, hb2, hb3, hbk⟩ := h2cast
  refine ⟨?_, by omega, hq, fun k => ⟨fun hk => ?_, fun hpk hk => ?_⟩⟩
  · unfold read_string
    simp only [ha1, hb1, dif_pos s.2]
  · unfold read_string
    simp only [(hak k).1 (by omega), (hbk k).1 hk, dif_pos s.2]
  · unfold read_string
    by_cases hc1 : k < pre.length + 4
    · obtain ⟨m, hm⟩ := (hak k).2 hpk hc1
      exact ⟨m, by simp only [hm]⟩
    · push_neg at hc1
      obtain ⟨m, hm⟩ := (hbk k).2 hc1 hk
      exact ⟨m, by simp only [(hak k).1 hc1, hm]⟩

/-- `cursor_read_exact_spec` with the data, requested count and positions
generalized to defining equations, for instantiation at arbitrary offsets. -/
theorem cursor_read_exact_spec_at (pre bs post : List UInt8) (w : String)
    (data : List UInt8) (n p q : Nat) (hdata : data = pre ++ (bs ++ post))
    (hn : n = bs.length) (hp : p = pre.length) (hq : q = pre.length + bs.length) :
    TruncSpec (fun c => cursor_read_exact c n w) data p bs q := by
  subst hdata hn hp hq
  exact cursor_read_exact_spec pre bs post w

/-- `read_i32_spec` with the data and positions generalized. -/
theorem read_i32_spec_at (pre post : List UInt8) (n : Int) (h0 : 0 ≤ n)
    (h1 : n < 2 ^ 31) (data : List UInt8) (p q : Nat)
    (hdata : data = pre ++ (i32_to_be_bytes n ++ post)) (hp : p = pre.length)
    (hq : q = pre.length + 4) :
    TruncSpec read_i32 data p n q := by
  subst hdata hp hq
  exact read_i32_spec pre post n h0 h1

/-- `read_string_spec` with the data and positions generalized. -/
theorem read_string_spec_at (pre post : List UInt8) (s : RString)
    (hs : s.val.length < 2 ^ 31) (data : List UInt8) (p q : Nat)
    (hdata : data = pre ++ (encode_lpstring s ++ post)) (hp : p = pre.length)
    (hq : q = pre.length + (4 + s.val.length)) :
    TruncSpec read_string data p s q := by
  subst hdata hp hq
  exact read_string_spec pre post s hs

/-- The document the decoder rebuilds from an encoded frame is the documented
normalization of the encoded document (empty relationship id ↦ absent). -/
theorem decoded_doc_eq_normalize (d : EmbeddedDocument) :
    ({ resource_name := d.resource_name, content_type := d.content_type,
       content := d.content,
       embedded_relationship_id :=
         if (d.embedded_relationship_id.getD RString.empty).val.isEmpty then none
         else some (d.embedded_relationship_id.getD RString.empty) } :
      EmbeddedDocument) = normalize_rel_id d := by
  cases d with
  | mk rn ct co rel =>
    cases rel with
    | none => simp [normalize_rel_id, RString.empty]
    | some r => simp [normalize_rel_id]

/-- The document-frame loop of `unpack_optimized_data` decodes exactly the
frames the (spec-modelled) encoder produced, position by position, and fails
with a `ParseError` on every truncation strictly inside the frames. -/
theorem unpack_docs_spec :
    ∀ (docs : List EmbeddedDocument), (∀ d ∈ docs, doc_wf d) →
    ∀ (pre post data : List UInt8) (p q : Nat),
      data = pre ++ ((docs.map encode_document).flatten ++ post) →
      p = pre.length →
      q = pre.length + ((docs.map encode_document).flatten).length →
      TruncSpec (unpack_docs docs.length) data p (docs.map normalize_rel_id) q := by
  intro docs
  induction docs with
  | nil =>
    intro hw pre post data p q hdata hp hq
    subst hdata hp hq
    simp only [List.map_nil, List.flatten_nil, List.length_nil, Nat.add_zero]
    exact truncSpec_congr (fun c => rfl) (truncSpec_pure [] _ _ (by simp))
  | cons d ds ih =>
    intro hw pre post data p q hdata hp hq
    subst hdata hp hq
    have hwd := hw d (List.mem_cons_self d ds)
    have hwds : ∀ x ∈ ds, doc_wf x := fun x hx => hw x (List.mem_cons_of_mem d hx)
    obtain ⟨hw1, hw2, hw3, hw4⟩ := hwd
    simp only [List.map_cons, List.flatten_cons, List.length_cons]
    rw [show (encode_document d ++ (ds.map encode_document).flatten) ++ post =
        encode_lpstring d.resource_name ++ (encode_lpstring d.content_type ++
        (encode_lpstring (d.embedded_relationship_id.getD RString.empty) ++
        (i32_to_be_bytes (d.content.length : Int) ++ (d.content ++
        ((ds.map encode_document).flatten ++ post))))) from by
      simp [encode_document, List.append_assoc]]
    rw [show pre.length +
        (encode_document d ++ (ds.map encode_document).flatten).length =
        pre.length + (4 + d.resource_name.val.length) +
        (4 + d.content_type.val.length) +
        (4 + (d.embedded_relationship_id.getD RString.empty).val.length) + 4 +
        d.content.length + ((ds.map encode_document).flatten).length from by
      simp only [List.length_append, encode_document, length_encode_lpstring,
        length_i32_to_be_bytes]
      omega]
    have h1 := read_string_spec_at pre
      (encode_lpstring d.content_type ++
        (encode_lpstring (d.embedded_relationship_id.getD RString.empty) ++
        (i32_to_be_bytes (d.content.length : Int) ++ (d.content ++
        ((ds.map encode_document).flatten ++ post)))))
      d.resource_name hw1
      (pre ++ (encode_lpstring d.resource_name ++ (encode_lpstring d.content_type ++
        (encode_lpstring (d.embedded_relationship_id.getD RString.empty) ++
        (i32_to_be_bytes (d.content.length : Int) ++ (d.content ++
        ((ds.map encode_document).flatten ++ post)))))))
      pre.length
      (pre.length + (4 + d.resource_name.val.length))
      rfl rfl rfl
    have h2 := read_string_spec_at (pre ++ encode_lpstring d.resource_name)
      (encode_lpstring (d.embedded_relationship_id.getD RString.empty) ++
        (i32_to_be_bytes (d.content.length : Int) ++ (d.content ++
        ((ds.map encode_document).flatten ++ post))))
      d.content_type hw2
      (pre ++ (encode_lpstring d.resource_name ++ (encode_lpstring d.content_type ++
        (encode_lpstring (d.embedded_relationship_id.getD RString.empty) ++
        (i32_to_be_bytes (d.content.length : Int) ++ (d.content ++
        ((ds.map encode_document).flatten ++ post)))))))
      (pre.length + (4 + d.resource_name.val.length))
      (pre.length + (4 + d.resource_name.val.length) +
        (4 + d.content_type.val.length))
      (by simp [List.append_assoc])
      (by simp only [List.length_append, length_encode_lpstring])
      (by simp only [List.length_append, length_encode_lpstring] <;> omega)
    have h3 := read_string_spec_at
      (pre ++ (encode_lpstring d.resource_name ++ encode_lpstring d.content_type))
      (i32_to_be_bytes (d.content.length : Int) ++ (d.content ++
        ((ds.map encode_document).flatten ++ post)))
      (d.embedded_relationship_id.getD RString.empty) hw3
      (pre ++ (encode_lpstring d.resource_name ++ (encode_lpstring d.content_type ++
        (encode_lpstring (d.embedded_relationship_id.getD RString.empty) ++
        (i32_to_be_bytes (d.content.length : Int) ++ (d.content ++
        ((ds.map encode_document).flatten ++ post)))))))
      (pre.length + (4 + d.resource_name.val.length) +
        (4 + d.content_type.val.length))
      (pre.length + (4 + d.resource_name.val.length) +
        (4 + d.content_type.val.length) +
        (4 + (d.embedded_relationship_id.getD RString.empty).val.length))
      (by simp [List.append_assoc])
      (by simp only [List.length_append, length_encode_lpstring] <;> omega)
      (by simp only [List.length_append, length_encode_lpstring] <;> omega)
    have h4 := read_i32_spec_at
      (pre ++ (encode_lpstring d.resource_name ++ (encode_lpstring d.content_type ++
        encode_lpstring (d.embedded_relationship_id.getD RString.empty))))
      (d.content ++ ((ds.map encode_document).flatten ++ post))
      (d.content.length : Int) (Int.natCast_nonneg _) (by exact_mod_cast hw4)
      (pre ++ (encode_lpstring d.resource_name ++ (encode_lpstring d.content_type ++
        (encode_lpstring (d.embedded_relationship_id.getD RString.empty) ++
        (i32_to_be_bytes (d.content.length : Int) ++ (d.content ++
        ((ds.map encode_document).flatten ++ post)))))))
      (pre.length + (4 + d.resource_name.val.length) +
        (4 + d.content_type.val.length) +
        (4 + (d.embedded_relationship_id.getD RString.empty).val.length))
      (pre.length + (4 + d.resource_name.val.length) +
        (4 + d.content_type.val.length) +
        (4 + (d.embedded_relationship_id.getD RString.empty).val.length) + 4)
      (by simp [List.append_assoc])
      (by simp only [List.length_append, length_encode_lpstring] <;> omega)
      (by simp only [List.length_append, length_encode_lpstring] <;> omega)
    have h5 := cursor_read_exact_spec_at
      (pre ++ (encode_lpstring d.resource_name ++ (encode_lpstring d.content_type ++
        (encode_lpstring (d.embedded_relationship_id.getD RString.empty) ++
        i32_to_be_bytes (d.content.length : Int)))))
      d.content ((ds.map encode_document).flatten ++ post) "content"
      (pre ++ (encode_lpstring d.resource_name ++ (encode_lpstring d.content_type ++
        (encode_lpstring (d.embedded_relationship_id.getD RString.empty) ++
        (i32_to_be_bytes (d.content.length : Int) ++ (d.content ++
        ((ds.map encode_document).flatten ++ post)))))))
      (rust_as_usize (d.content.length : Int))
      (pre.length + (4 + d.resource_name.val.length) +
        (4 + d.content_type.val.length) +
        (4 + (d.embedded_relationship_id.getD RString.empty).val.length) + 4)
      (pre.length + (4 + d.resource_name.val.length) +
        (4 + d.content_type.val.length) +
        (4 + (d.embedded_relationship_id.getD RString.empty).val.length) + 4 +
        d.content.length)
      (by simp [List.append_assoc])
      (rust_as_usize_natCast _ (by omega))
      (by simp only [List.length_append, length_encode_lpstring,
        length_i32_to_be_bytes] <;> omega)
      (by simp only [List.length_append, length_encode_lpstring,
        length_i32_to_be_bytes] <;> omega)
    have h6 := ih hwds
      (pre ++ (encode_lpstring d.resource_name ++ (encode_lpstring d.content_type ++
        (encode_lpstring (d.embedded_relationship_id.getD RString.empty) ++
        (i32_to_be_bytes (d.content.length : Int) ++ d.content)))))
      post
      (pre ++ (encode_lpstring d.resource_name ++ (encode_lpstring d.content_type ++
        (encode_lpstring (d.embedded_relationship_id.getD RString.empty) ++
        (i32_to_be_bytes (d.content.length : Int) ++ (d.content ++
        ((ds.map encode_document).flatten ++ post)))))))
      (pre.length + (4 + d.resource_name.val.length) +
        (4 + d.content_type.val.length) +
        (4 + (d.embedded_relationship_id.getD RString.empty).val.length) + 4 +
        d.content.length)
      (pre.length + (4 + d.resource_name.val.length) +
        (4 + d.content_type.val.length) +
        (4 + (d.embedded_relationship_id.getD RString.empty).val.length) + 4 +
        d.content.length + ((ds.map encode_document).flatten).length)
      (by simp [List.append_assoc])
      (by simp only [List.length_append, length_encode_lpstring,
        length_i32_to_be_bytes] <;> omega)
      (by simp only [List.length_append, length_encode_lpstring,
        length_i32_to_be_bytes] <;> omega)
    obtain ⟨h1g, h1pq, h1len, h1k⟩ := h1
    obtain ⟨h2g, h2pq, h2len, h2k⟩ := h2
    obtain ⟨h3g, h3pq, h3len, h3k⟩ := h3
    obtain ⟨h4g, h4pq, h4len, h4k⟩ := h4
    obtain ⟨h5g, h5pq, h5len, h5k⟩ := h5
    obtain ⟨h6g, h6pq, h6len, h6k⟩ := h6
    refine ⟨?_, by omega, h6len, fun k => ⟨fun hk => ?_, fun hpk hk => ?_⟩⟩
    · simp only [unpack_docs, h1g, h2g, h3g, h4g, h5g, h6g,
        decoded_doc_eq_normalize]
    · simp only [unpack_docs, (h1k k).1 (by omega), (h2k k).1 (by omega),
        (h3k k).1 (by omega), (h4k k).1 (by omega), (h5k k).1 (by omega),
        (h6k k).1 hk, decoded_doc_eq_normalize]
    · simp only [unpack_docs]
      by_cases hc1 : k < pre.length + (4 + d.resource_name.val.length)
      · obtain ⟨m, hm⟩ := (h1k k).2 hpk hc1
        exact ⟨m, by simp only [hm]⟩
      push_neg at hc1
      by_cases hc2 : k < pre.length + (4 + d.resource_name.val.length) +
          (4 + d.content_type.val.length)
      · obtain ⟨m, hm⟩ := (h2k k).2 hc1 hc2
        exact ⟨m, by simp only [(h1k k).1 hc1, hm]⟩
      push_neg at hc2
      by_cases hc3 : k < pre.length + (4 + d.resource_name.val.length) +
          (4 + d.content_type.val.length) +
          (4 + (d.embedded_relationship_id.getD RString.empty).val.length)
      · obtain ⟨m, hm⟩ := (h3k k).2 hc2 hc3
        exact ⟨m, by simp only [(h1k k).1 hc1, (h2k k).1 hc2, hm]⟩
      push_neg at hc3
      by_cases hc4 : k < pre.length + (4 + d.resource_name.val.length) +
          (4 + d.content_type.val.length) +
          (4 + (d.embedded_relationship_id.getD RString.empty).val.length) + 4
      · obtain ⟨m, hm⟩ := (h4k k).2 hc3 hc4
        exact ⟨m, by simp only [(h1k k).1 hc1, (h2k k).1 hc2, (h3k k).1 hc3, hm]⟩
      push_neg at hc4
      by_cases hc5 : k < pre.length + (4 + d.resource_name.val.length) +
          (4 + d.content_type.val.length) +
          (4 + (d.embedded_relationship_id.getD RString.empty).val.length) + 4 +
          d.content.length
      · obtain ⟨m, hm⟩ := (h5k k).2 hc4 hc5
        exact ⟨m, by simp only [(h1k k).1 hc1, (h2k k).1 hc2, (h3k k).1 hc3,
          (h4k k).1 hc4, hm]⟩
      push_neg at hc5
      obtain ⟨m, hm⟩ := (h6k k).2 hc5 hk
      exact ⟨m, by simp only [(h1k k).1 hc1, (h2k k).1 hc2, (h3k k).1 hc3,
        (h4k k).1 hc4, (h5k k).1 hc5, hm]⟩

/-- Normalization is the identity on documents whose relationship id is not
the (documented lossy) empty string. -/
theorem normalize_rel_id_eq_self (d : EmbeddedDocument)
    (h : d.embedded_relationship_id ≠ some RString.empty) :
    normalize_rel_id d = d := by
  cases d with
  | mk rn ct co rel =>
    cases rel with
    | none => simp [normalize_rel_id]
    | some r =>
      by_cases hr : r.val.isEmpty
      · exfalso
        apply h
        have hrv : r = RString.empty := Subtype.ext (List.isEmpty_iff.mp hr)
        rw [hrv]
      · unfold normalize_rel_id
        simp [hr]

/-- C9 (confirmed): decoding the packed encoding of any well-formed document
sequence returns it field-for-field, except that an empty relationship id
decodes as absent (the documented lossy case); on sequences with no empty
relationship id the round trip is exact. -/
theorem C9_roundtrip (docs : List EmbeddedDocument) (hw : ∀ d ∈ docs, doc_wf d)
    (hc : docs.length < 2 ^ 31) :
    unpack_optimized_data (pack_optimized_data docs) (docs.length : Int) =
      some (.ok (docs.map normalize_rel_id)) ∧
    ((∀ d ∈ docs, d.embedded_relationship_id ≠ some RString.empty) →
      unpack_optimized_data (pack_optimized_data docs) (docs.length : Int) =
        some (.ok docs)) := by
  have hi32 := read_i32_spec_at [] ((docs.map encode_document).flatten)
    (docs.length : Int) (Int.natCast_nonneg _) (by exact_mod_cast hc)
    (pack_optimized_data docs) 0 4
    (by simp [pack_optimized_data]) rfl (by simp)
  have hdocs := unpack_docs_spec docs hw (i32_to_be_bytes (docs.length : Int)) []
    (pack_optimized_data docs) 4 (4 + ((docs.map encode_document).flatten).length)
    (by simp [pack_optimized_data]) (length_i32_to_be_bytes _).symm
    (by rw [length_i32_to_be_bytes])
  have hmain : unpack_optimized_data (pack_optimized_data docs)
      (docs.length : Int) = some (.ok (docs.map normalize_rel_id)) := by
    unfold unpack_optimized_data
    rw [if_neg (by rw [rust_as_usize_natCast _ (by omega)]; omega)]
    simp only [hi32.1]
    rw [if_neg (by simp)]
    simp only [Int.toNat_natCast, hdocs.1]
  refine ⟨hmain, fun hrel => ?_⟩
  have hmap : docs.map normalize_rel_id = docs :=
    calc docs.map normalize_rel_id
        = docs.map id := List.map_congr_left
          (fun d hd => normalize_rel_id_eq_self d (hrel d hd))
      _ = docs := List.map_id docs
  rw [hmain, hmap]

/-- C9 witness: the round trip evaluated on a concrete document. -/
theorem C9_witness :
    unpack_optimized_data (pack_optimized_data [sample_doc [1, 2]])
      (([sample_doc [1, 2]] : List EmbeddedDocument).length : Int) =
      some (.ok ([sample_doc [1, 2]].map normalize_rel_id)) ∧
    unpack_optimized_data (pack_optimized_data [sample_doc [1, 2]])
      (([sample_doc [1, 2]] : List EmbeddedDocument).length : Int) =
      some (.ok [sample_doc [1, 2]]) :=
  ⟨(C9_roundtrip [sample_doc [1, 2]] (by decide) (by decide)).1,
   (C9_roundtrip [sample_doc [1, 2]] (by decide) (by decide)).2 (by decide)⟩

/-- C5 counterexample: a truncated packed buffer decoded against a negative
expected count does not fail with a typed error — `Vec::with_capacity
(expected_count as usize)` panics (the `none` outcome) before any read. -/
theorem C5_counterexample :
    unpack_optimized_data ((pack_optimized_data [sample_doc [1, 2]]).take 5)
      (-1) = none ∧
    (5 : Nat) < (pack_optimized_data [sample_doc [1, 2]]).length := by
  decide

/-- C5 (amended): decoding any truncation of a well-formed packed buffer —
truncated strictly inside the buffer — against any *nonnegative* expected
count (every `i32` count the optimized path can legitimately report) fails
deterministically with a typed `ParseError`, so no documents are returned and
the whole batch is discarded on any frame error; a negative expected count
instead panics in `Vec::with_capacity` before any read. -/
theorem C5_truncation_fails (docs : List EmbeddedDocument)
    (hw : ∀ d ∈ docs, doc_wf d) (hc : docs.length < 2 ^ 31)
    (k : Nat) (hk : k < (pack_optimized_data docs).length) (ec : Int) :
    (0 ≤ ec → ec < 2 ^ 31 →
      ∃ msg, unpack_optimized_data ((pack_optimized_data docs).take k) ec =
        some (.error (Error.ParseError msg))) ∧
    (-2 ^ 31 ≤ ec → ec < 0 →
      unpack_optimized_data ((pack_optimized_data docs).take k) ec = none) := by
  have hi32 := read_i32_spec_at [] ((docs.map encode_document).flatten)
    (docs.length : Int) (Int.natCast_nonneg _) (by exact_mod_cast hc)
    (pack_optimized_data docs) 0 4
    (by simp [pack_optimized_data]) rfl (by simp)
  have hdocs := unpack_docs_spec docs hw (i32_to_be_bytes (docs.length : Int)) []
    (pack_optimized_data docs) 4 (4 + ((docs.map encode_document).flatten).length)
    (by simp [pack_optimized_data]) (length_i32_to_be_bytes _).symm
    (by rw [length_i32_to_be_bytes])
  have hplen : (pack_optimized_data docs).length =
      4 + ((docs.map encode_document).flatten).length := by
    simp [pack_optimized_data, length_i32_to_be_bytes]
  constructor
  · intro hec0 hec31
    have hnp : ¬ (2 ^ 63 - 1 < rust_as_usize ec) := by
      unfold rust_as_usize
      omega
    by_cases h4 : k < 4
    · obtain ⟨m, hm⟩ := (hi32.2.2.2 k).2 (Nat.zero_le k) h4
      refine ⟨m, ?_⟩
      unfold unpack_optimized_data
      rw [if_neg hnp]
      simp only [hm]
    · push_neg at h4
      have hok := (hi32.2.2.2 k).1 h4
      by_cases hec : (docs.length : Int) ≠ ec
      · refine ⟨"Document count mismatch: expected " ++ toString ec ++ ", got " ++
          toString (docs.length : Int), ?_⟩
        unfold unpack_optimized_data
        rw [if_neg hnp]
        simp only [hok]
        rw [if_pos hec]
      · push_neg at hec
        obtain ⟨m, hm⟩ := (hdocs.2.2.2 k).2 h4 (by omega)
        refine ⟨m, ?_⟩
        unfold unpack_optimized_data
        rw [if_neg hnp]
        simp only [hok]
        rw [if_neg (by simp [hec])]
        simp only [Int.toNat_natCast, hm]
  · intro hlo hhi
    have hp : 2 ^ 63 - 1 < rust_as_usize ec := by
      unfold rust_as_usize
      omega
    unfold unpack_optimized_data
    rw [if_pos hp]

/-- C5 witness: truncating a concrete one-document packed buffer at offset 5
fails with a parse error against the nonnegative expected count 7, and panics
against the negative expected count -3. -/
theorem C5_witness :
    (∃ msg, unpack_optimized_data
      ((pack_optimized_data [sample_doc [1, 2]]).take 5) 7 =
      some (.error (Error.ParseError msg))) ∧
    unpack_optimized_data
      ((pack_optimized_data [sample_doc [1, 2]]).take 5) (-3) = none :=
  ⟨(C5_truncation_fails [sample_doc [1, 2]] (by decide) (by decide) 5
      (by decide) 7).1 (by decide) (by decide),
   (C5_truncation_fails [sample_doc [1, 2]] (by decide) (by decide) 5
      (by decide) (-3)).2 (by decide) (by decide)⟩

end Extractous
